import Mathlib

/-!
Shallow embedding of `src/Project.py` (class `PriceMachine`): a price-list
loader, normalizer and search engine.

Modelling conventions:
* Python floats are modelled by `ℚ`.  The numeric literals appearing in the
  repository's data flow ("80,5", "1", "0", ...) are exact in both models;
  `parseNum` covers the plain decimal subset of Python's `float()` grammar
  (optional sign, digits, optional fractional part).
* A `RawRecord` is the ordered column-name/value association produced by
  `csv.DictReader` for one row.
* Python's `re.search(pattern, s, re.IGNORECASE)` applied to the three fixed
  alternations of literal Cyrillic words is case-insensitive substring search;
  `matchesPat` embeds exactly that.  The user-supplied query regex of
  `search_element` is an external facility and is modelled by an explicit
  matcher parameter (total `String → String → Bool`, or `Except Unit Bool`
  where compilation of a malformed pattern can fail).
* Exceptions escaping a Python function are modelled with `Except`:
  `row_handle` catches `(TypeError, ValueError)` only, so the
  `ZeroDivisionError` raised by `price / weight` when the weight parses to
  zero is an escaping (`.error`) outcome, while a caught parse failure is the
  `.ok none` outcome.
* Python's `list.sort` / `sorted` are stable sorts; a stable sort by a total
  preorder is unique, so they are embedded as `List.insertionSort` by the
  ratio key.
-/

/-- Lower-casing as performed by `re.IGNORECASE` on the characters that occur
in this program: ASCII letters and the Cyrillic range `А`–`Я` plus `Ё`. -/
def toLowerRu (c : Char) : Char :=
  if 'A' ≤ c ∧ c ≤ 'Z' then Char.ofNat (c.toNat + 32)
  else if 0x410 ≤ c.toNat ∧ c.toNat ≤ 0x42F then Char.ofNat (c.toNat + 32)
  else if c.toNat = 0x401 then Char.ofNat 0x451
  else c

/-- The lower-cased character list of a string. -/
def lowerChars (s : String) : List Char := s.data.map toLowerRu

/-- `needle` occurs at the front of `hay`. -/
def startsWithList : List Char → List Char → Bool
  | [], _ => true
  | _ :: _, [] => false
  | a :: as, b :: bs => a == b && startsWithList as bs

/-- `needle` occurs somewhere inside `hay` (Python `in` / `re.search` of a
literal pattern). -/
def containsSub : List Char → List Char → Bool
  | n, [] => n.isEmpty
  | n, h :: t => startsWithList n (h :: t) || containsSub n t

/-- `re.search(r'(w1|w2|...)', columnName, re.IGNORECASE)` succeeds: some
alternative occurs in the column name, case-insensitively. -/
def matchesPat (words : List String) (col : String) : Bool :=
  words.any fun w => containsSub (lowerChars w) (lowerChars col)

/-- The alternation `(название|продукт|товар|наименование)` used for the
product-name column in `row_handle`. -/
def namePatterns : List String := ["название", "продукт", "товар", "наименование"]

/-- The alternation `(цена|розница)` used for the price column. -/
def pricePatterns : List String := ["цена", "розница"]

/-- The alternation `(фасовка|масса|вес)` used for the weight column. -/
def weightPatterns : List String := ["фасовка", "масса", "вес"]

/-- Drop leading whitespace from a character list. -/
def dropWs : List Char → List Char
  | [] => []
  | c :: cs => if c.isWhitespace then dropWs cs else c :: cs

/-- Python `str.strip()`: remove leading and trailing whitespace. -/
def pyStrip (s : String) : String :=
  ⟨dropWs ((dropWs s.data.reverse).reverse)⟩

/-- One raw CSV row as `csv.DictReader` yields it: the ordered list of
(column name, cell value) pairs. -/
abbrev RawRecord : Type := List (String × String)

/-- `PriceMachine.extract_value(row, pattern)`: the stripped value of the
first column whose name matches the pattern, `''` if none does. -/
def extractValue : RawRecord → List String → String
  | [], _ => ""
  | (c, v) :: rest, pats =>
      if matchesPat pats c then pyStrip v else extractValue rest pats

/-- Python `str.replace(',', '.')`. -/
def commaToDot (s : String) : String :=
  ⟨s.data.map fun c => if c = ',' then '.' else c⟩

/-- Numeric value of a digit list (most significant first). -/
def digitsToNat (ds : List Char) : Nat :=
  ds.foldl (fun n c => 10 * n + (c.toNat - 48)) 0

/-- Parse an unsigned decimal literal: digits, optionally a point and more
digits, at least one digit overall. -/
def parseNumAux (cs : List Char) : Option ℚ :=
  let ip := cs.takeWhile Char.isDigit
  let rest := cs.dropWhile Char.isDigit
  match rest with
  | [] => if ip.isEmpty then none else some (digitsToNat ip : ℚ)
  | '.' :: fp =>
      if fp.all Char.isDigit && (!ip.isEmpty || !fp.isEmpty) then
        some ((digitsToNat ip : ℚ) + (digitsToNat fp : ℚ) / (10 ^ fp.length))
      else none
  | _ => none

/-- Python `float(s)` on the plain decimal subset (optional sign, digits,
optional fractional part); `none` is the `ValueError` outcome, e.g. on `''`
or non-numeric text. -/
def parseNum (s : String) : Option ℚ :=
  match s.data with
  | '+' :: cs => parseNumAux cs
  | '-' :: cs => (parseNumAux cs).map Neg.neg
  | cs => parseNumAux cs

/-- Python `round(q, 2)` on exact values: round to two fractional digits. -/
def round2 (q : ℚ) : ℚ := (round (q * 100) : ℚ) / 100

/-- One normalized row of `self.data`:
`[file_name, product_name, price, weight, round(price / weight, 2)]`. -/
structure CatalogEntry where
  source : String
  name : String
  price : ℚ
  weight : ℚ
  ratio : ℚ
deriving DecidableEq

/-- `PriceMachine.row_handle(file_name, row)`.  `.ok (some e)` appends `e`;
`.ok none` is a caught `(TypeError, ValueError)` — the diagnostic is printed
and the row skipped; `.error ()` is the uncaught `ZeroDivisionError` raised
by `price / weight` when the weight parses to zero (not in the `except`
clause), which escapes `row_handle`. -/
def rowHandle (fileName : String) (row : RawRecord) :
    Except Unit (Option CatalogEntry) :=
  let productName := extractValue row namePatterns
  match parseNum (commaToDot (extractValue row pricePatterns)) with
  | none => .ok none
  | some price =>
    match parseNum (commaToDot (extractValue row weightPatterns)) with
    | none => .ok none
    | some weight =>
      if weight = 0 then .error ()
      else .ok (some ⟨fileName, productName, price, weight, round2 (price / weight)⟩)

deriving instance DecidableEq for Except

/-- The row loop of `PriceMachine.load_data` over the records of one
successfully opened file: appended entries accumulate in `acc`; a caught
row error is skipped; an uncaught exception (`.error`) aborts the loop. -/
def loadRows (fileName : String) :
    List RawRecord → List CatalogEntry → Except Unit (List CatalogEntry)
  | [], acc => .ok acc
  | r :: rs, acc =>
    match rowHandle fileName r with
    | .error e => .error e
    | .ok none => loadRows fileName rs acc
    | .ok (some entry) => loadRows fileName rs (acc ++ [entry])

/-- One candidate input file: its name and what the CSV reader does with it —
either the record sequence, or a file-level `IOError`/`csv.Error`. -/
abbrev FileInput : Type := String × Except Unit (List RawRecord)

/-- `PriceMachine.load_data(file_path)`: a file-level read error is caught
(the file is skipped with a diagnostic), while an exception escaping
`row_handle` is not caught by `except (IOError, csv.Error)` and escapes. -/
def loadData (f : FileInput) (acc : List CatalogEntry) :
    Except Unit (List CatalogEntry) :=
  match f.2 with
  | .error _ => .ok acc
  | .ok rows => loadRows f.1 rows acc

/-- The file loop of `PriceMachine.load_prices`. -/
def loadFiles : List FileInput → List CatalogEntry → Except Unit (List CatalogEntry)
  | [], acc => .ok acc
  | f :: fs, acc =>
    match loadData f acc with
    | .error e => .error e
    | .ok acc2 => loadFiles fs acc2

/-- The filename filter of `load_prices`:
`filename.endswith('.csv') and 'price' in filename.lower()`. -/
def isPriceFile (name : String) : Bool :=
  name.endsWith ".csv" && containsSub "price".data (lowerChars name)

/-- `PriceMachine.load_prices(directory)`: `self.data = []` discards the
prior catalog `st`, then every listed file passing the name filter is
loaded in order. -/
def loadPrices (listing : List FileInput) (st : List CatalogEntry) :
    Except Unit (List CatalogEntry) :=
  loadFiles (listing.filter fun f => isPriceFile f.1) []

/-- The sort key of `search_element` and `export_to_html_all`:
`lambda x: x[4]`, comparison by the ratio field. -/
def leRatio (a b : CatalogEntry) : Prop := a.ratio ≤ b.ratio

instance : DecidableRel leRatio :=
  fun a b => inferInstanceAs (Decidable (a.ratio ≤ b.ratio))

instance : IsTotal CatalogEntry leRatio := ⟨fun a b => le_total a.ratio b.ratio⟩

instance : IsTrans CatalogEntry leRatio := ⟨fun _ _ _ => le_trans⟩

/-- `PriceMachine.search_element(query)` with a total matcher `m` standing
for the external `re.search(query, ·, re.IGNORECASE)` facility: the list
comprehension filters `self.data`, then Python's stable `sorted` orders by
the ratio key — embedded as insertion sort, the unique stable sort. -/
def searchElement (m : String → String → Bool) (query : String)
    (data : List CatalogEntry) : List CatalogEntry :=
  List.insertionSort leRatio (data.filter fun row => m query row.name)

/-- `re.search(query, s, re.IGNORECASE)` for a metacharacter-free query:
case-insensitive substring occurrence. -/
def reSearchLit (query s : String) : Bool :=
  containsSub (lowerChars query) (lowerChars s)

/-- The comprehension of `search_element` with a fallible matcher: a
malformed pattern makes `re.search` raise `re.error` at its first
evaluation, aborting the comprehension. -/
def filterE (m : String → String → Except Unit Bool) (query : String) :
    List CatalogEntry → Except Unit (List CatalogEntry)
  | [] => .ok []
  | e :: es =>
    match m query e.name with
    | .error err => .error err
    | .ok b =>
      match filterE m query es with
      | .error err => .error err
      | .ok r => .ok (if b then e :: r else r)

/-- `search_element` with a fallible matcher. -/
def searchElementE (m : String → String → Except Unit Bool) (query : String)
    (data : List CatalogEntry) : Except Unit (List CatalogEntry) :=
  match filterE m query data with
  | .error err => .error err
  | .ok r => .ok (List.insertionSort leRatio r)

/-- `self.data.sort(key=lambda row: row[4])` performed by
`export_to_html_all`: Python's in-place stable sort by ratio. -/
def sortAllByRatio (data : List CatalogEntry) : List CatalogEntry :=
  List.insertionSort leRatio data

/-- The loop exit test of `main`: `query.lower() in 'exit'` — substring
containment of the lowered query in the literal `'exit'`. -/
def isExit (query : String) : Bool :=
  containsSub (lowerChars query) "exit".data

/-- One non-exit iteration of `main`'s loop: `find_text` searches (the
matcher may raise `re.error`, which nothing catches — `.error` carries the
catalog state left behind), renders and exports, and finally
`export_to_html_all` sorts `self.data` in place. -/
def processQuery (m : String → String → Except Unit Bool) (query : String)
    (st : List CatalogEntry) : Except (List CatalogEntry) (List CatalogEntry) :=
  match searchElementE m query st with
  | .error _ => .error st
  | .ok _ => .ok (sortAllByRatio st)

/-- `main`'s interactive loop run on a finite queue of input lines:
`.ok` final state on exit or exhausted input, `.error` when an uncaught
exception terminates the loop. -/
def runQueries (m : String → String → Except Unit Bool) :
    List String → List CatalogEntry → Except (List CatalogEntry) (List CatalogEntry)
  | [], st => .ok st
  | q :: rest, st =>
    if isExit q then .ok st
    else
      match processQuery m q st with
      | .error st2 => .error st2
      | .ok st2 => runQueries m rest st2

/-- The scenario row `["Молоко","80,5","1"]` under header
`["товар","цена","вес"]`, as `csv.DictReader` presents it. -/
def milkRow : RawRecord := [("товар", "Молоко"), ("цена", "80,5"), ("вес", "1")]

/-- The entry `row_handle` produces from `milkRow` in `price_1.csv`. -/
def milkEntry : CatalogEntry := ⟨"price_1.csv", "Молоко", 161/2, 1, 161/2⟩

/-- A second scenario entry: "Молочный шоколад" with ratio 120. -/
def chocEntry : CatalogEntry := ⟨"price_1.csv", "Молочный шоколад", 120, 1, 120⟩

/-- A row whose weight cell is `"0"`. -/
def zeroRow : RawRecord := [("товар", "X"), ("цена", "10"), ("вес", "0")]

/-- A row with negative price and weight cells. -/
def negRow : RawRecord := [("товар", "Y"), ("цена", "-5"), ("вес", "-1")]

/-- The entry `row_handle` produces from `negRow` in `price_n.csv`. -/
def negEntry : CatalogEntry := ⟨"price_n.csv", "Y", -5, -1, 5⟩

/-- A row none of whose column names matches a NAME pattern, with valid
price and weight cells. -/
def noNameRow : RawRecord := [("x", "Z"), ("цена", "10"), ("вес", "2")]

/-- A second no-name row (PRICE and WEIGHT supplied via the alternative
column names `розница` and `масса`). -/
def noNameRow2 : RawRecord := [("col", "W"), ("розница", "3"), ("масса", "2")]

/-- A row whose price cell is non-numeric text. -/
def badPriceRow : RawRecord := [("товар", "A"), ("цена", "abc"), ("вес", "1")]

/-- A matcher standing for a session whose query `"("` is a malformed
pattern (`re.error` on every evaluation) while other queries are literal
searches. -/
def badMatcher (q s : String) : Except Unit Bool :=
  if q = "(" then .error () else .ok (reSearchLit q s)

set_option maxRecDepth 20000

/-! ## Helper lemmas -/

/-- When no column name matches, `extract_value` falls through to `''`. -/
theorem extractValue_no_match (pats : List String) :
    ∀ row : RawRecord, (∀ cv ∈ row, matchesPat pats cv.1 = false) →
      extractValue row pats = ""
  | [], _ => rfl
  | (c, v) :: rest, h => by
      have hc : matchesPat pats c = false := h (c, v) (List.mem_cons_self _ _)
      simp only [extractValue, hc, Bool.false_eq_true, if_false]
      exact extractValue_no_match pats rest fun cv hcv => h cv (List.mem_cons_of_mem _ hcv)

/-- Inversion of a successful `row_handle`: the appended entry is built from
the resolved fields, and its weight is the nonzero parsed weight. -/
theorem rowHandle_some_inv (f : String) (row : RawRecord) (e : CatalogEntry)
    (h : rowHandle f row = .ok (some e)) :
    ∃ p w : ℚ,
      parseNum (commaToDot (extractValue row pricePatterns)) = some p ∧
      parseNum (commaToDot (extractValue row weightPatterns)) = some w ∧
      w ≠ 0 ∧
      e = ⟨f, extractValue row namePatterns, p, w, round2 (p / w)⟩ := by
  cases hp : parseNum (commaToDot (extractValue row pricePatterns)) with
  | none => simp [rowHandle, hp] at h
  | some p =>
    cases hw : parseNum (commaToDot (extractValue row weightPatterns)) with
    | none => simp [rowHandle, hp, hw] at h
    | some w =>
      by_cases hw0 : w = 0
      · simp [rowHandle, hp, hw, if_pos hw0] at h
      · simp only [rowHandle, hp, hw, if_neg hw0, Except.ok.injEq,
          Option.some.injEq] at h
        exact ⟨p, w, rfl, rfl, hw0, h.symm⟩

/-- Forward direction: when both numeric fields parse and the weight is
nonzero, `row_handle` appends exactly this entry. -/
theorem rowHandle_eq_of_parses (f : String) (row : RawRecord) (p w : ℚ)
    (hp : parseNum (commaToDot (extractValue row pricePatterns)) = some p)
    (hw : parseNum (commaToDot (extractValue row weightPatterns)) = some w)
    (hw0 : w ≠ 0) :
    rowHandle f row =
      .ok (some ⟨f, extractValue row namePatterns, p, w, round2 (p / w)⟩) := by
  simp only [rowHandle, hp, hw, if_neg hw0]

/-- Inserting `a` with `orderedInsert` places it before every element of
equal ratio already present, and past every element of smaller ratio: the
subsequence of entries with any fixed ratio gains `a` at the front when
`a` has that ratio and is untouched otherwise. -/
theorem filter_ratio_orderedInsert (r : ℚ) (a : CatalogEntry) :
    ∀ l : List CatalogEntry,
      (List.orderedInsert leRatio a l).filter (fun e => decide (e.ratio = r)) =
        (if a.ratio = r then [a] else []) ++
          l.filter (fun e => decide (e.ratio = r))
  | [] => by
      rw [List.orderedInsert]
      by_cases har : a.ratio = r <;> simp [har]
  | b :: l => by
      rw [List.orderedInsert]
      by_cases hab : leRatio a b
      · rw [if_pos hab]
        by_cases har : a.ratio = r <;> simp [har]
      · rw [if_neg hab]
        have hblt : b.ratio < a.ratio := lt_of_not_le hab
        by_cases har : a.ratio = r
        · have hbr : b.ratio ≠ r := by
            intro hb
            rw [hb, har] at hblt
            exact lt_irrefl _ hblt
          simp [List.filter_cons, har, hbr, filter_ratio_orderedInsert r a l]
        · by_cases hbr : b.ratio = r <;>
            simp [List.filter_cons, har, hbr, filter_ratio_orderedInsert r a l]

/-- Stability of the embedded sort: for every ratio value, the subsequence
of entries carrying that ratio is the same before and after sorting. -/
theorem filter_ratio_insertionSort (r : ℚ) :
    ∀ l : List CatalogEntry,
      (List.insertionSort leRatio l).filter (fun e => decide (e.ratio = r)) =
        l.filter (fun e => decide (e.ratio = r))
  | [] => rfl
  | a :: l => by
      by_cases har : a.ratio = r <;>
        simp [List.insertionSort, filter_ratio_orderedInsert, List.filter, har,
          filter_ratio_insertionSort r l]

/-- Provenance through the row loop: every entry of a successful outcome
was already accumulated or was appended by `row_handle` on a row of the
file. -/
theorem loadRows_ok_mem (f : String) :
    ∀ (rows : List RawRecord) (acc d : List CatalogEntry),
      loadRows f rows acc = .ok d →
      ∀ e ∈ d, e ∈ acc ∨ ∃ r ∈ rows, rowHandle f r = .ok (some e)
  | [], acc, d, h => by
      simp only [loadRows, Except.ok.injEq] at h
      subst h
      exact fun e he => Or.inl he
  | r :: rs, acc, d, h => by
      intro e he
      cases hr : rowHandle f r with
      | error err => rw [loadRows, hr] at h; exact absurd h (by simp)
      | ok o =>
        cases o with
        | none =>
          rw [loadRows, hr] at h
          rcases loadRows_ok_mem f rs acc d h e he with hacc | ⟨r', hr', he'⟩
          · exact Or.inl hacc
          · exact Or.inr ⟨r', List.mem_cons_of_mem _ hr', he'⟩
        | some entry =>
          rw [loadRows, hr] at h
          rcases loadRows_ok_mem f rs (acc ++ [entry]) d h e he with hacc | ⟨r', hr', he'⟩
          · rcases List.mem_append.mp hacc with h1 | h2
            · exact Or.inl h1
            · have : e = entry := by simpa using h2
              exact Or.inr ⟨r, List.mem_cons_self _ _, this ▸ hr⟩
          · exact Or.inr ⟨r', List.mem_cons_of_mem _ hr', he'⟩

/-- Provenance through the file loop: every entry of a successful load was
already accumulated, or was produced by `row_handle` on a row yielded by a
successfully read file of the pass. -/
theorem loadFiles_ok_mem :
    ∀ (fs : List FileInput) (acc d : List CatalogEntry),
      loadFiles fs acc = .ok d →
      ∀ e ∈ d, e ∈ acc ∨
        ∃ fi ∈ fs, ∃ rows, fi.2 = .ok rows ∧
          ∃ r ∈ rows, rowHandle fi.1 r = .ok (some e)
  | [], acc, d, h => by
      simp only [loadFiles, Except.ok.injEq] at h
      subst h
      exact fun e he => Or.inl he
  | fi :: fs, acc, d, h => by
      intro e he
      cases hload : loadData fi acc with
      | error err => rw [loadFiles, hload] at h; exact absurd h (by simp)
      | ok acc2 =>
        rw [loadFiles, hload] at h
        have step : e ∈ acc2 → e ∈ acc ∨
            ∃ rows, fi.2 = .ok rows ∧ ∃ r ∈ rows, rowHandle fi.1 r = .ok (some e) := by
          intro he2
          cases hf : fi.2 with
          | error err =>
            unfold loadData at hload
            rw [hf] at hload
            cases hload with
            | refl => exact Or.inl he2
          | ok rows =>
            unfold loadData at hload
            rw [hf] at hload
            rcases loadRows_ok_mem fi.1 rows acc acc2 hload e he2 with hacc | ⟨r, hrm, hre⟩
            · exact Or.inl hacc
            · exact Or.inr ⟨rows, rfl, r, hrm, hre⟩
        rcases loadFiles_ok_mem fs acc2 d h e he with hacc2 | ⟨fi', hfi', rows, hrows, r, hrm, hre⟩
        · rcases step hacc2 with h1 | ⟨rows, hrows, r, hrm, hre⟩
          · exact Or.inl h1
          · exact Or.inr ⟨fi, List.mem_cons_self _ _, rows, hrows, r, hrm, hre⟩
        · exact Or.inr ⟨fi', List.mem_cons_of_mem _ hfi', rows, hrows, r, hrm, hre⟩

/-- `extract_value` returns the stripped value of the first matching column,
regardless of what follows it. -/
theorem extractValue_first (pats : List String) :
    ∀ (pre : RawRecord) (c v : String) (post : RawRecord),
      (∀ cv ∈ pre, matchesPat pats cv.1 = false) → matchesPat pats c = true →
      extractValue (pre ++ (c, v) :: post) pats = pyStrip v
  | [], c, v, post, _, hc => by simp [extractValue, hc]
  | (c0, v0) :: rest, c, v, post, hpre, hc => by
      have h0 : matchesPat pats c0 = false := hpre (c0, v0) (List.mem_cons_self _ _)
      simp only [List.cons_append, extractValue, h0, Bool.false_eq_true, if_false]
      exact extractValue_first pats rest c v post
        (fun cv hcv => hpre cv (List.mem_cons_of_mem _ hcv)) hc

/-! ## Claim theorems -/

/-- C1: the claim says a zero-weight row is dropped with a diagnostic and
the load continues.  The code instead raises `ZeroDivisionError` in
`price / weight`, which `except (TypeError, ValueError)` does not catch:
evaluating the embedding at the failing input shows `row_handle` aborts
(`.error`), and the whole `load_prices` pass aborts too — the following
well-formed row is never ingested. -/
theorem zero_weight_row_aborts_load :
    rowHandle "price_list.csv" zeroRow = .error () ∧
    loadPrices [("price_list.csv", Except.ok [zeroRow, milkRow])] [] = .error () := by
  constructor
  · with_unfolding_all decide
  · with_unfolding_all decide

/-- C2 counterexample: a row whose weight cell is `"-1"` and price cell is
`"-5"` is admitted into the catalog, so the claimed invariant
`unit_weight > 0` (and positive `unit_price`) is false. -/
theorem negative_weight_entry_admitted :
    loadPrices [("price_n.csv", Except.ok [negRow])] [] = .ok [negEntry] ∧
    ¬ (0 < negEntry.weight) ∧ ¬ (0 < negEntry.price) := by
  refine ⟨by with_unfolding_all decide, ?_, ?_⟩
  · norm_num [negEntry]
  · norm_num [negEntry]

/-- C2 (amended): after any successful load pass, every catalog entry has
nonzero unit weight (the division succeeded); no sign or finiteness
constraint is enforced on weight or price. -/
theorem loaded_entries_weight_ne_zero (listing : List FileInput)
    (st d : List CatalogEntry) (h : loadPrices listing st = .ok d) :
    ∀ e ∈ d, e.weight ≠ 0 := by
  intro e he
  rcases loadFiles_ok_mem _ [] d h e he with h0 | ⟨fi, _, rows, _, r, _, hre⟩
  · exact absurd h0 (List.not_mem_nil e)
  · rcases rowHandle_some_inv _ _ _ hre with ⟨p, w, _, _, hw0, hee⟩
    rw [hee]
    exact hw0

/-- Witness for the amended C2 theorem at a concrete load. -/
theorem loaded_entries_weight_ne_zero_witness : milkEntry.weight ≠ 0 :=
  loaded_entries_weight_ne_zero [("price_1.csv", Except.ok [milkRow])] [] [milkEntry]
    (by with_unfolding_all decide) milkEntry (List.mem_singleton_self _)

/-- C3: for every well-formed row (both numeric fields resolve and parse
after comma normalization, nonzero weight) the produced entry carries
`ratio = round(price / weight, 2)`; and the scenario row
`["Молоко","80,5","1"]` under header `["товар","цена","вес"]` yields the
entry `{name "Молоко", price 80.5, weight 1, ratio 80.5}`. -/
theorem rowHandle_ratio_spec :
    (∀ (f : String) (row : RawRecord) (p w : ℚ),
        parseNum (commaToDot (extractValue row pricePatterns)) = some p →
        parseNum (commaToDot (extractValue row weightPatterns)) = some w →
        w ≠ 0 →
        rowHandle f row =
          .ok (some ⟨f, extractValue row namePatterns, p, w, round2 (p / w)⟩)) ∧
    rowHandle "price_1.csv" milkRow = .ok (some milkEntry) ∧
    milkEntry.name = "Молоко" ∧ milkEntry.price = 80.5 ∧
    milkEntry.weight = 1 ∧ milkEntry.ratio = 80.5 := by
  refine ⟨rowHandle_eq_of_parses, ?_, rfl, ?_, rfl, ?_⟩
  · with_unfolding_all decide
  · norm_num [milkEntry]
  · norm_num [milkEntry]

/-- Witness for C3's universally quantified part at the scenario row. -/
theorem rowHandle_ratio_spec_witness :
    rowHandle "price_1.csv" milkRow =
      .ok (some ⟨"price_1.csv", extractValue milkRow namePatterns, 161/2, 1,
        round2 (161/2 / 1)⟩) :=
  rowHandle_ratio_spec.1 "price_1.csv" milkRow (161/2) 1
    (by with_unfolding_all decide) (by with_unfolding_all decide) (by norm_num)

/-- C4: for each of the three semantic fields, `extract_value` returns the
whitespace-trimmed value of the first column (in record order) whose name
contains a case-insensitive match for that field's pattern set; it returns
the empty string when no column matches; and once a column matches, the
columns after it are never consulted (the result is independent of them). -/
theorem extractValue_spec (pats : List String)
    (hpats : pats = namePatterns ∨ pats = pricePatterns ∨ pats = weightPatterns) :
    (∀ row : RawRecord, (∀ cv ∈ row, matchesPat pats cv.1 = false) →
        extractValue row pats = "") ∧
    (∀ (pre : RawRecord) (c v : String) (post post' : RawRecord),
        (∀ cv ∈ pre, matchesPat pats cv.1 = false) → matchesPat pats c = true →
        extractValue (pre ++ (c, v) :: post) pats = pyStrip v ∧
        extractValue (pre ++ (c, v) :: post) pats =
          extractValue (pre ++ (c, v) :: post') pats) := by
  refine ⟨extractValue_no_match pats, ?_⟩
  intro pre c v post post' hpre hc
  rw [extractValue_first pats pre c v post hpre hc,
    extractValue_first pats pre c v post' hpre hc]
  exact ⟨rfl, rfl⟩

/-- Witness for C4 at the PRICE field on a concrete record: the first
matching column ("Цена") wins, its value is stripped, and the trailing
columns do not influence the result. -/
theorem extractValue_spec_witness :
    extractValue ([("x", "")] ++ ("Цена", " 80 ") :: [("вес", "1")]) pricePatterns =
      pyStrip " 80 " ∧
    extractValue ([("x", "")] ++ ("Цена", " 80 ") :: [("вес", "1")]) pricePatterns =
      extractValue ([("x", "")] ++ ("Цена", " 80 ") :: []) pricePatterns :=
  (extractValue_spec pricePatterns (Or.inr (Or.inl rfl))).2
    [("x", "")] "Цена" " 80 " [("вес", "1")] [] (by decide) (by decide)

/-- C5: `search_element` keeps exactly the entries whose name the matcher
accepts (as a permutation — same entries with multiplicity), returns them
non-decreasing in ratio, and ties preserve catalog order (the subsequence
at each ratio value is unchanged); the scenario query `"мол"` against
"Молоко" (ratio 80.5) and "Молочный шоколад" (ratio 120) returns both, in
that order. -/
theorem searchElement_spec :
    (∀ (m : String → String → Bool) (q : String) (data : List CatalogEntry),
        (searchElement m q data).Perm (data.filter fun e => m q e.name) ∧
        List.Sorted leRatio (searchElement m q data) ∧
        ∀ r : ℚ,
          (searchElement m q data).filter (fun e => decide (e.ratio = r)) =
            (data.filter fun e => m q e.name).filter (fun e => decide (e.ratio = r))) ∧
    searchElement reSearchLit "мол" [milkEntry, chocEntry] = [milkEntry, chocEntry] := by
  constructor
  · intro m q data
    exact ⟨List.perm_insertionSort leRatio _, List.sorted_insertionSort leRatio _,
      fun r => filter_ratio_insertionSort r _⟩
  · with_unfolding_all decide

/-- C6 counterexample: with a matcher whose query `"("` is malformed (raises
on every evaluation), the loop run `["(", "мол"]` on a one-entry catalog
terminates with an uncaught error — the follow-up query `"мол"`, which on
its own succeeds, is never processed.  The claim that the loop continues to
accept the next query is false. -/
theorem malformed_query_terminates_loop :
    runQueries badMatcher ["(", "мол"] [milkEntry] = .error [milkEntry] ∧
    runQueries badMatcher ["мол"] [milkEntry] = .ok [milkEntry] := by
  constructor
  · with_unfolding_all decide
  · with_unfolding_all decide

/-- C6 (amended): a malformed pattern (matcher erroring on every string)
submitted against a nonempty catalog makes the uncaught `re.error`
propagate out of the loop: the session terminates with the catalog exactly
as it was (the failed query mutates nothing), and subsequent queued queries
are never processed. -/
theorem malformed_query_propagates (m : String → String → Except Unit Bool)
    (q : String) (rest : List String) (e : CatalogEntry) (st : List CatalogEntry)
    (hm : ∀ s, m q s = .error ()) (hq : isExit q = false) :
    runQueries m (q :: rest) (e :: st) = .error (e :: st) := by
  simp [runQueries, hq, processQuery, searchElementE, filterE, hm]

/-- Witness for the amended C6 theorem at a concrete session. -/
theorem malformed_query_propagates_witness :
    runQueries (fun _ _ => Except.error ()) ["("] [chocEntry] = .error [chocEntry] :=
  malformed_query_propagates (fun _ _ => Except.error ()) "(" [] chocEntry []
    (fun _ => rfl) (by decide)

/-- C7 counterexample: a record in which the required NAME field is missing
(no column name matches any NAME pattern) but price and weight are valid is
not skipped — `row_handle` appends an entry.  The claim, quantified over
every required field, is false for NAME. -/
theorem missing_name_field_still_appended :
    (∀ cv ∈ noNameRow, matchesPat namePatterns cv.1 = false) ∧
    rowHandle "price_list.csv" noNameRow =
      .ok (some ⟨"price_list.csv", "", 10, 2, 5⟩) := by
  constructor
  · decide
  · with_unfolding_all decide

/-- C7 (amended): restricted to the two numeric fields — whenever the
resolved PRICE or WEIGHT text fails numeric parsing (including the empty
string produced by a missing column), the row yields no entry (`ValueError`
caught, diagnostic printed) and the row loop continues with the subsequent
rows exactly as if the row were absent. -/
theorem price_or_weight_failure_skips_row (f : String) (row : RawRecord)
    (rows : List RawRecord) (acc : List CatalogEntry)
    (h : parseNum (commaToDot (extractValue row pricePatterns)) = none ∨
         parseNum (commaToDot (extractValue row weightPatterns)) = none) :
    rowHandle f row = .ok none ∧
    loadRows f (row :: rows) acc = loadRows f rows acc := by
  have hok : rowHandle f row = .ok none := by
    rcases h with hp | hw
    · simp [rowHandle, hp]
    · cases hp : parseNum (commaToDot (extractValue row pricePatterns)) with
      | none => simp [rowHandle, hp]
      | some p => simp [rowHandle, hp, hw]
  exact ⟨hok, by rw [loadRows, hok]⟩

/-- Witness for the amended C7 theorem at a concrete non-numeric price. -/
theorem price_or_weight_failure_skips_row_witness :
    rowHandle "price_list.csv" badPriceRow = .ok none ∧
    loadRows "price_list.csv" [badPriceRow] [] = loadRows "price_list.csv" [] [] :=
  price_or_weight_failure_skips_row "price_list.csv" badPriceRow [] []
    (Or.inl (by decide))

/-- C8: the full-export sort (`self.data.sort(key=lambda row: row[4])`)
leaves the backing sequence non-decreasing in ratio, is a permutation of
the pre-sort contents, is idempotent, and is stable (the subsequence at
each ratio value is unchanged). -/
theorem sortAllByRatio_spec (data : List CatalogEntry) :
    List.Sorted leRatio (sortAllByRatio data) ∧
    (sortAllByRatio data).Perm data ∧
    sortAllByRatio (sortAllByRatio data) = sortAllByRatio data ∧
    ∀ r : ℚ, (sortAllByRatio data).filter (fun e => decide (e.ratio = r)) =
      data.filter (fun e => decide (e.ratio = r)) :=
  ⟨List.sorted_insertionSort leRatio data, List.perm_insertionSort leRatio data,
    List.Sorted.insertionSort_eq (List.sorted_insertionSort leRatio data),
    fun r => filter_ratio_insertionSort r data⟩

/-- C9: `load_prices` clears the backing sequence before the first file
(`self.data = []`), so the outcome does not depend on the prior catalog at
all, and every entry of a successful pass comes from `row_handle` applied
to a row of one of that pass's files (one that passes the name filter and
was read without a file-level error). -/
theorem loadPrices_replaces (listing : List FileInput)
    (st st' d : List CatalogEntry) :
    loadPrices listing st = loadPrices listing st' ∧
    (loadPrices listing st = .ok d →
      ∀ e ∈ d, ∃ fi ∈ listing, isPriceFile fi.1 = true ∧
        ∃ rows, fi.2 = .ok rows ∧ ∃ r ∈ rows, rowHandle fi.1 r = .ok (some e)) := by
  constructor
  · rfl
  · intro h e he
    rcases loadFiles_ok_mem _ [] d h e he with h0 | ⟨fi, hfi, rows, hrows, r, hrm, hre⟩
    · exact absurd h0 (List.not_mem_nil e)
    · have hmem := List.mem_filter.mp hfi
      exact ⟨fi, hmem.1, hmem.2, rows, hrows, r, hrm, hre⟩

/-- Witness for C9's provenance part at a concrete one-file load. -/
theorem loadPrices_replaces_witness :
    ∃ fi ∈ ([("price_1.csv", Except.ok [milkRow])] : List FileInput),
      isPriceFile fi.1 = true ∧ ∃ rows, fi.2 = .ok rows ∧
        ∃ r ∈ rows, rowHandle fi.1 r = .ok (some milkEntry) :=
  (loadPrices_replaces [("price_1.csv", Except.ok [milkRow])] [] [] [milkEntry]).2
    (by with_unfolding_all decide) milkEntry (List.mem_singleton_self _)

/-- C10: a record with no NAME-matching column but parseable price and
nonzero parseable weight is not routed to the error path: `row_handle`
appends an entry whose name is the empty string. -/
theorem missing_name_appends_empty_name (f : String) (row : RawRecord) (p w : ℚ)
    (hname : ∀ cv ∈ row, matchesPat namePatterns cv.1 = false)
    (hp : parseNum (commaToDot (extractValue row pricePatterns)) = some p)
    (hw : parseNum (commaToDot (extractValue row weightPatterns)) = some w)
    (hw0 : w ≠ 0) :
    rowHandle f row = .ok (some ⟨f, "", p, w, round2 (p / w)⟩) := by
  have hn := extractValue_no_match namePatterns row hname
  have hres := rowHandle_eq_of_parses f row p w hp hw hw0
  rw [hn] at hres
  exact hres

/-- Witness for C10 at a concrete nameless record. -/
theorem missing_name_appends_empty_name_witness :
    rowHandle "price_2.csv" noNameRow2 =
      .ok (some ⟨"price_2.csv", "", 3, 2, round2 (3 / 2)⟩) :=
  missing_name_appends_empty_name "price_2.csv" noNameRow2 3 2 (by decide)
    (by with_unfolding_all decide) (by with_unfolding_all decide) (by norm_num)
